import Mathlib

/-!
Verification of the investiq backend core: data ingestion and alignment
(yfinance_client), the FinRL pipeline orchestration, signal translation,
metrics, and the prediction cache (finrl_integration, routers/predict).
Source functions are embedded shallowly: machine floats are idealised as
rationals or reals, pandas frames as lists of rows, and Python exceptions
as Except values.
-/

namespace InvestIQ

/-! ## Errors

FinRLException messages raised by the pipeline, one constructor per raise
site (the exact message text is kept as a comment):
- noYahooData: "No Yahoo Finance data returned for symbol."
- insufficientHistoricalData: "Insufficient historical data for symbol."
- notEnoughRowsForWindows: "Not enough rows to create training and testing windows."
- emptyTrainOrTest: "Empty training or testing dataset produced."
-/
inductive FinRLErr where
  | noYahooData
  | insufficientHistoricalData
  | notEnoughRowsForWindows
  | emptyTrainOrTest
deriving DecidableEq, Repr

/-- Errors raised by Python itself rather than by the pipeline code. -/
inductive PyErr where
  /-- ValueError: the truth value of an array with more than one element
  is ambiguous. -/
  | ambiguousTruthValue
deriving DecidableEq, Repr

/-! ## Action scalar extraction

Embeds the staticmethod FinRLService.action_to_scalar of
finrl_integration.py (an identical copy lives in routers/predict.py):

    if isinstance(action_value, (list, tuple, np.ndarray)):
        return float(action_value[0]) if action_value else 0.0
    return float(action_value)

Python truthiness differs per runtime type: a list or tuple is truthy iff
non-empty; a one-element numpy array is truthy iff its element is nonzero;
an empty numpy array is falsy; a numpy array with two or more elements
raises ValueError when used as a condition.
-/

/-- A raw policy action value as it reaches action_to_scalar: a Python
scalar, list, tuple, or numpy array of floats. -/
inductive ActionValue where
  | scalar (x : ℚ)
  | list (xs : List ℚ)
  | tuple (xs : List ℚ)
  | array (xs : List ℚ)
deriving DecidableEq, Repr

/-- Shallow embedding of action_to_scalar, including the truthiness test
applied to the collection argument. -/
def action_to_scalar : ActionValue → Except PyErr ℚ
  | .scalar x => .ok x
  | .list xs =>
    match xs with
    | [] => .ok 0
    | x :: _ => .ok x
  | .tuple xs =>
    match xs with
    | [] => .ok 0
    | x :: _ => .ok x
  | .array xs =>
    match xs with
    | [] => .ok 0
    | [x] => if x = 0 then .ok 0 else .ok x
    | _ :: _ :: _ => .error .ambiguousTruthValue

/-! ## Yahoo chart array alignment (yfinance_client.py) -/

/-- Embeds the helper align_length of yfinance_client.py: a missing series
becomes all-null of the target length; a long series is truncated; a short
one is padded with nulls at the tail. -/
def align_length (values : Option (List (Option ℚ))) (n : ℕ) : List (Option ℚ) :=
  match values with
  | none => List.replicate n none
  | some vs =>
    if vs.length = n then vs
    else if vs.length > n then vs.take n
    else vs ++ List.replicate (n - vs.length) none

/-- The aligned OHLCV series built by download_price_history. -/
structure AlignedQuote where
  opens : List (Option ℚ)
  highs : List (Option ℚ)
  lows : List (Option ℚ)
  closes : List (Option ℚ)
  adjCloses : List (Option ℚ)
  volumes : List (Option ℚ)
deriving DecidableEq, Repr

/-- Embeds the alignment section of download_price_history: each quote
series is aligned to the timestamp count; the adjusted close uses the
provider adjclose series when present, else the already-aligned closes. -/
def align_price_history (timestamps : List ℕ)
    (o h l c v : Option (List (Option ℚ)))
    (adjclose : Option (List (Option ℚ))) : AlignedQuote :=
  let n := timestamps.length
  let closes := align_length c n
  { opens := align_length o n
    highs := align_length h n
    lows := align_length l n
    closes := closes
    adjCloses := align_length (some (adjclose.getD closes)) n
    volumes := align_length v n }

/-! ## Preprocessing row-count checks (C7)

Frames are lists of rows; a row is a list of nullable cells. The download
step embeds download_market_data of finrl_integration.py (empty check,
dropna, row-count guard; the sort by date does not change the row count
or null content and is not modelled). The feature step embeds
engineer_features: the external FeatureEngineer is an uninterpreted
frame transformer, followed by ffill().dropna() exactly as in the source,
with no row-count check afterwards.
-/

/-- pandas dropna: keep only the rows with no null cell. -/
def dropna (rows : List (List (Option ℚ))) : List (List (Option ℚ)) :=
  rows.filter fun r => r.all fun cell => cell.isSome

/-- One step of column-wise forward fill: each null cell takes the value
carried from the previous rows. -/
def ffillRow (prev row : List (Option ℚ)) : List (Option ℚ) :=
  List.zipWith (fun cell p => match cell with | some v => some v | none => p) row prev

def ffillAux (prev : List (Option ℚ)) :
    List (List (Option ℚ)) → List (List (Option ℚ))
  | [] => []
  | r :: rs =>
    let filled := ffillRow prev r
    filled :: ffillAux filled rs

/-- pandas ffill: carry the last non-null value of each column forward. -/
def ffill (rows : List (List (Option ℚ))) : List (List (Option ℚ)) :=
  match rows with
  | [] => []
  | r :: rs => ffillAux (List.replicate r.length none) (r :: rs)

/-- Embeds download_market_data (minRows is the hard-coded bound: 100 in
finrl_integration.py, 30 in routers/predict.py). -/
def download_market_data (minRows : ℕ) (raw : List (List (Option ℚ))) :
    Except FinRLErr (List (List (Option ℚ))) :=
  if raw = [] then .error .noYahooData
  else
    let frame := dropna raw
    if frame = [] ∨ frame.length < minRows then .error .insufficientHistoricalData
    else .ok frame

/-- Embeds engineer_features: the external indicator computation indic,
then ffill, then dropna. No row-count check is performed here. -/
def engineer_features (indic : List (List (Option ℚ)) → List (List (Option ℚ)))
    (df : List (List (Option ℚ))) : List (List (Option ℚ)) :=
  dropna (ffill (indic df))

/-- The data-preparation front of run_pipeline: download then feature
engineering. -/
def preprocess (minRows : ℕ)
    (indic : List (List (Option ℚ)) → List (List (Option ℚ)))
    (raw : List (List (Option ℚ))) : Except FinRLErr (List (List (Option ℚ))) :=
  (download_market_data minRows raw).map (engineer_features indic)

/-! ## Dataset splitting (C8) -/

/-- df date max, as in split_dataframes (the frame is non-empty there). -/
def maxDate (dates : List ℤ) : ℤ := dates.foldl max (dates.headD 0)

/-- df date min. -/
def minDate (dates : List ℤ) : ℤ := dates.foldl min (dates.headD 0)

/-- Modelled from the spec: the external finrl data_split helper is not
part of this repository; the spec describes the partitions as train =
rows in [minDate, splitDate) and test = rows in [splitDate, maxDate]. -/
def data_split_spec (startD endD : ℤ) (closedEnd : Bool) (dates : List ℤ) : List ℤ :=
  dates.filter fun d => startD ≤ d ∧ (if closedEnd then d ≤ endD else d < endD)

/-- Embeds split_dataframes of finrl_integration.py: the split date is
maxDate minus the test window; the guard on splitDate against minDate
fires before any partition is attempted. -/
def split_dataframes (testWindowDays : ℤ) (dates : List ℤ) :
    Except FinRLErr (List ℤ × List ℤ) :=
  let lastDate := maxDate dates
  let splitDate := lastDate - testWindowDays
  if splitDate ≤ minDate dates then .error .notEnoughRowsForWindows
  else
    let train := data_split_spec (minDate dates) splitDate false dates
    let test := data_split_spec splitDate lastDate true dates
    if train = [] ∨ test = [] then .error .emptyTrainOrTest
    else .ok (train, test)

/-! ## Prediction price history (C9) -/

/-- One point of the prediction payload price history. -/
structure PricePoint where
  date : ℤ
  value : ℚ
deriving DecidableEq, Repr

/-- Embeds the price history construction of build_prediction_payload
(and of run_prediction in routers/predict.py): the last 240 rows of the
raw frame, in frame order, mapped to date and close. pandas tail 240 is
drop of all but the trailing 240 rows. -/
def price_history (raw : List (ℤ × ℚ)) : List PricePoint :=
  (raw.drop (raw.length - 240)).map fun r => ⟨r.1, r.2⟩

/-! ## Prediction cache (C2, C3, C10)

Embeds FinRLService.get_or_train of finrl_integration.py. The cache dict
is a partial map from symbol to entry; the clock reading taken at the top
of the method (datetime.utcnow) is the parameter now. The method never
reads the clock again, so the wall-clock instant at which the new entry
is actually inserted, tInsert, does not influence the computation; it is
kept as a parameter so that properties relating the stored expiry to the
insertion instant can be stated. The pipeline parameter stands for
run_pipeline, which either produces the two payloads or raises. -/

/-- A cached pair of payloads with its expiry instant (minutes). -/
structure CacheEntry (P B : Type) where
  prediction : P
  backtest : B
  expires_at : ℤ
deriving DecidableEq, Repr

/-- Embeds get_or_train. Returns the served entry (or the propagated
pipeline error) together with the cache map after the call. On a hit the
map is returned untouched; on a miss the pipeline runs and, on success
only, the entry is stored with expiry now + ttlMinutes, where now is the
clock reading taken before the pipeline ran. -/
def get_or_train {P B : Type} (pipeline : String → Except FinRLErr (P × B))
    (ttlMinutes : ℤ) (now tInsert : ℤ) (symbol : String)
    (cache : String → Option (CacheEntry P B)) :
    Except FinRLErr (CacheEntry P B) × (String → Option (CacheEntry P B)) :=
  let ns := symbol.toUpper
  let hit : Option (CacheEntry P B) :=
    match cache ns with
    | some e => if now < e.expires_at then some e else none
    | none => none
  match hit with
  | some e => (.ok e, cache)
  | none =>
    match pipeline ns with
    | .error err => (.error err, cache)
    | .ok (pred, bt) =>
      let entry : CacheEntry P B := ⟨pred, bt, now + ttlMinutes⟩
      (.ok entry, fun k => if k = ns then some entry else cache k)

/-! ## Theorems -/

/-- C4 counterexample: a two-element numpy array does not yield its first
element; the truthiness test raises ValueError, so action_to_scalar is
not total over multi-element arrays. -/
theorem action_to_scalar_multi_array_cex :
    action_to_scalar (.array [2, 3]) = .error .ambiguousTruthValue ∧
    action_to_scalar (.array [2, 3]) ≠ .ok 2 := by
  constructor
  · rfl
  · simp [action_to_scalar]

/-- C4 (amended): action_to_scalar returns the scalar itself for scalars,
the first element (or 0 when empty) for lists and tuples of any length and
for numpy arrays of length at most one; for a numpy array with two or
more elements it raises the ambiguous-truth-value error instead of being
total. -/
theorem action_to_scalar_spec :
    (∀ x : ℚ, action_to_scalar (.scalar x) = .ok x) ∧
    (∀ xs : List ℚ, action_to_scalar (.list xs) = .ok (xs.headD 0)) ∧
    (∀ xs : List ℚ, action_to_scalar (.tuple xs) = .ok (xs.headD 0)) ∧
    (∀ xs : List ℚ, xs.length ≤ 1 → action_to_scalar (.array xs) = .ok (xs.headD 0)) ∧
    (∀ (x y : ℚ) (ys : List ℚ),
      action_to_scalar (.array (x :: y :: ys)) = .error .ambiguousTruthValue) := by
  refine ⟨fun x => rfl, fun xs => ?_, fun xs => ?_, fun xs hlen => ?_, fun x y ys => rfl⟩
  · cases xs <;> rfl
  · cases xs <;> rfl
  · match xs, hlen with
    | [], _ => rfl
    | [x], _ =>
      by_cases hx : x = 0
      · subst hx; rfl
      · simp [action_to_scalar, hx]

theorem action_to_scalar_spec_witness :
    ([(5:ℚ)].length ≤ 1) ∧ action_to_scalar (.array [5]) = .ok ([(5:ℚ)].headD 0) :=
  ⟨by decide, action_to_scalar_spec.2.2.2.1 [5] (by decide)⟩

/-- Helper: alignment always produces the requested length. -/
theorem align_length_length (v : Option (List (Option ℚ))) (n : ℕ) :
    (align_length v n).length = n := by
  cases v with
  | none => simp [align_length]
  | some vs =>
    simp only [align_length]
    split
    · omega
    · split
      · simp; omega
      · simp; omega

/-- Helper: aligning a series that already has the requested length is
the identity. -/
theorem align_length_of_length_eq (vs : List (Option ℚ)) (n : ℕ)
    (h : vs.length = n) : align_length (some vs) n = vs := by
  simp only [align_length]
  rw [if_pos h]

/-- C5: every aligned series has the timestamp length; a longer series is
truncated, a shorter one is tail-padded with nulls; the adjusted close
falls back to the aligned closes exactly when the provider adjclose is
absent; and a length-3 close series against 5 timestamps aligns to the
3 values followed by 2 nulls. -/
theorem align_length_spec :
    (∀ (v : Option (List (Option ℚ))) (n : ℕ), (align_length v n).length = n) ∧
    (∀ (vs : List (Option ℚ)) (n : ℕ), n ≤ vs.length →
      align_length (some vs) n = vs.take n) ∧
    (∀ (vs : List (Option ℚ)) (n : ℕ), vs.length ≤ n →
      align_length (some vs) n = vs ++ List.replicate (n - vs.length) none) ∧
    (∀ ts o h l c v, (align_price_history ts o h l c v none).adjCloses =
      (align_price_history ts o h l c v none).closes) ∧
    (∀ ts o h l c v a, (align_price_history ts o h l c v (some a)).adjCloses =
      align_length (some a) ts.length) ∧
    (∀ c1 c2 c3 : Option ℚ, align_length (some [c1, c2, c3]) 5 =
      [c1, c2, c3, none, none]) := by
  refine ⟨align_length_length, fun vs n hn => ?_, fun vs n hn => ?_,
    fun ts o h l c v => ?_, fun ts o h l c v a => rfl, fun c1 c2 c3 => rfl⟩
  · simp only [align_length]
    split
    · rename_i heq; rw [← heq, List.take_length]
    · split
      · rfl
      · omega
  · simp only [align_length]
    split
    · rename_i heq; rw [← heq]; simp
    · split
      · omega
      · rfl
  · exact align_length_of_length_eq _ _ (align_length_length c ts.length)

theorem align_length_spec_witness :
    (1 ≤ ([some (3:ℚ), none]).length) ∧
    align_length (some [some (3:ℚ), none]) 1 = [some (3:ℚ), none].take 1 :=
  ⟨by decide, align_length_spec.2.1 [some 3, none] 1 (by decide)⟩

/-- C8: the splitter fails with the not-enough-rows error whenever the
split date (max date minus the test window) is at or before the min date,
for any dataset contents, and in particular any dataset spanning exactly
365 days with a 400-day test window fails with that error. -/
theorem split_dataframes_insufficient :
    (∀ (w : ℤ) (dates : List ℤ), maxDate dates - w ≤ minDate dates →
      split_dataframes w dates = .error .notEnoughRowsForWindows) ∧
    (∀ dates : List ℤ, maxDate dates - minDate dates = 365 →
      split_dataframes 400 dates = .error .notEnoughRowsForWindows) := by
  have hmain : ∀ (w : ℤ) (dates : List ℤ), maxDate dates - w ≤ minDate dates →
      split_dataframes w dates = .error .notEnoughRowsForWindows := by
    intro w dates hle
    simp only [split_dataframes]
    rw [if_pos hle]
  exact ⟨hmain, fun dates hspan => hmain 400 dates (by omega)⟩

theorem split_dataframes_insufficient_witness :
    (maxDate [0, 200, 365] - 400 ≤ minDate [0, 200, 365]) ∧
    split_dataframes 400 [0, 200, 365] = .error .notEnoughRowsForWindows :=
  ⟨by decide, split_dataframes_insufficient.1 400 [0, 200, 365] (by decide)⟩

/-- C9: the prediction price history is the raw frame when it has at most
240 rows, and exactly the trailing 240 rows (a suffix, in frame order)
when longer; ascending date order of the raw frame is preserved. -/
theorem price_history_bound :
    (∀ raw : List (ℤ × ℚ), raw.length ≤ 240 →
      price_history raw = raw.map fun r => ⟨r.1, r.2⟩) ∧
    (∀ raw : List (ℤ × ℚ), 240 < raw.length →
      (price_history raw).length = 240 ∧
      price_history raw <:+ raw.map fun r => ⟨r.1, r.2⟩) ∧
    (∀ raw : List (ℤ × ℚ), (raw.map Prod.fst).Sorted (· ≤ ·) →
      ((price_history raw).map PricePoint.date).Sorted (· ≤ ·)) := by
  have hmap : ∀ raw : List (ℤ × ℚ),
      price_history raw = (raw.map fun r => PricePoint.mk r.1 r.2).drop (raw.length - 240) := by
    intro raw
    simp [price_history, List.map_drop]
  refine ⟨fun raw hle => ?_, fun raw hgt => ⟨?_, ?_⟩, fun raw hsort => ?_⟩
  · simp [price_history, Nat.sub_eq_zero_of_le hle]
  · simp [price_history]; omega
  · rw [hmap]; exact List.drop_suffix _ _
  · have : (price_history raw).map PricePoint.date = (raw.map Prod.fst).drop (raw.length - 240) := by
      rw [hmap, ← List.map_drop, ← List.map_drop]
      simp [List.map_map, Function.comp_def]
    rw [this]
    exact hsort.sublist (List.drop_sublist _ _)

theorem price_history_bound_witness :
    ([((3:ℤ), (7:ℚ))].length ≤ 240) ∧
    price_history [((3:ℤ), (7:ℚ))] = [((3:ℤ), (7:ℚ))].map fun r => ⟨r.1, r.2⟩ :=
  ⟨by decide, price_history_bound.1 [(3, 7)] (by decide)⟩

/-- C2: when the cache holds an unexpired entry for the normalized symbol,
a get_or_train call for any symbol with the same uppercase form returns
exactly the stored entry and leaves the cache map untouched, for every
possible pipeline (so the pipeline is never consulted). -/
theorem get_or_train_cache_hit {P B : Type}
    (pipeline : String → Except FinRLErr (P × B)) (ttl now tInsert : ℤ)
    (s1 s2 : String) (cache : String → Option (CacheEntry P B))
    (e : CacheEntry P B)
    (hcase : s2.toUpper = s1.toUpper)
    (hlook : cache s1.toUpper = some e)
    (hfresh : now < e.expires_at) :
    get_or_train pipeline ttl now tInsert s2 cache = (.ok e, cache) := by
  simp only [get_or_train, hcase, hlook, if_pos hfresh]

theorem get_or_train_cache_hit_witness :
    ("AAPL".toUpper = "AAPL".toUpper) ∧
    ((fun k => if k = "AAPL".toUpper then some (⟨1, 2, 10⟩ : CacheEntry ℕ ℕ) else none)
        "AAPL".toUpper = some ⟨1, 2, 10⟩) ∧
    ((0:ℤ) < 10) ∧
    get_or_train (fun _ => .error .noYahooData) 60 0 0 "AAPL"
        (fun k => if k = "AAPL".toUpper then some (⟨1, 2, 10⟩ : CacheEntry ℕ ℕ) else none)
      = (.ok ⟨1, 2, 10⟩,
          fun k => if k = "AAPL".toUpper then some ⟨1, 2, 10⟩ else none) :=
  ⟨rfl, by simp, by decide,
    get_or_train_cache_hit _ 60 0 0 "AAPL" "AAPL" _ _ rfl (by simp) (by decide)⟩

/-- C3 counterexample: with the clock at 0 on entry, a TTL of 10 and an
insertion that happens at instant 5 (after the pipeline ran), the stored
entry expires at 0 + 10 = 10, not at the insertion instant plus the TTL;
the expiry is computed from the clock reading taken before the pipeline
ran. -/
theorem get_or_train_fresh_expiry_cex :
    ((get_or_train (fun _ => Except.ok ((1:ℕ), (2:ℕ))) 10 0 5 "A" (fun _ => none)).2
        "A".toUpper) = some ⟨1, 2, 10⟩ ∧ (10:ℤ) ≠ 5 + 10 := by
  refine ⟨?_, by decide⟩
  show (if "A".toUpper = "A".toUpper then some (⟨1, 2, 0 + 10⟩ : CacheEntry ℕ ℕ) else none)
      = some ⟨1, 2, 10⟩
  rw [if_pos rfl]
  norm_num

/-- C3 (amended): on a miss with a successful pipeline, the stored entry
expires at now + TTL where now is the clock reading taken at the top of
get_or_train, before the pipeline ran; the instant tInsert at which the
insertion actually happens does not enter the expiry. -/
theorem get_or_train_miss_expiry {P B : Type}
    (pipeline : String → Except FinRLErr (P × B)) (ttl now tInsert : ℤ)
    (symbol : String) (cache : String → Option (CacheEntry P B)) (p : P) (b : B)
    (hmiss : ∀ e, cache symbol.toUpper = some e → e.expires_at ≤ now)
    (hok : pipeline symbol.toUpper = Except.ok (p, b)) :
    get_or_train pipeline ttl now tInsert symbol cache =
      (.ok ⟨p, b, now + ttl⟩,
        fun k => if k = symbol.toUpper then some ⟨p, b, now + ttl⟩ else cache k) := by
  cases hc : cache symbol.toUpper with
  | none => simp [get_or_train, hc, hok]
  | some e => simp [get_or_train, hc, not_lt.mpr (hmiss e hc), hok]

theorem get_or_train_miss_expiry_witness :
    (∀ e : CacheEntry ℕ ℕ, (fun _ => none : String → Option (CacheEntry ℕ ℕ)) "A".toUpper
        = some e → e.expires_at ≤ 0) ∧
    ((fun _ => Except.ok (1, 2) : String → Except FinRLErr (ℕ × ℕ)) "A".toUpper
      = Except.ok (1, 2)) ∧
    get_or_train (fun _ => Except.ok (1, 2) : String → Except FinRLErr (ℕ × ℕ))
        60 0 7 "A" (fun _ => none) =
      (.ok ⟨1, 2, 0 + 60⟩,
        fun k => if k = "A".toUpper then some ⟨1, 2, 0 + 60⟩ else none) :=
  ⟨(fun _ h => nomatch h), rfl,
    get_or_train_miss_expiry _ 60 0 7 "A" _ 1 2 (fun _ h => nomatch h) rfl⟩

/-- C10: when the pipeline fails during a miss, get_or_train propagates
the error and returns the cache map unchanged: no entry is inserted,
replaced or removed for any symbol. -/
theorem get_or_train_error_preserves_cache {P B : Type}
    (pipeline : String → Except FinRLErr (P × B)) (ttl now tInsert : ℤ)
    (symbol : String) (cache : String → Option (CacheEntry P B)) (err : FinRLErr)
    (hmiss : ∀ e, cache symbol.toUpper = some e → e.expires_at ≤ now)
    (herr : pipeline symbol.toUpper = Except.error err) :
    get_or_train pipeline ttl now tInsert symbol cache = (.error err, cache) := by
  cases hc : cache symbol.toUpper with
  | none => simp [get_or_train, hc, herr]
  | some e => simp [get_or_train, hc, not_lt.mpr (hmiss e hc), herr]

theorem get_or_train_error_preserves_cache_witness :
    (∀ e : CacheEntry ℕ ℕ, (fun _ => none : String → Option (CacheEntry ℕ ℕ)) "A".toUpper
        = some e → e.expires_at ≤ 0) ∧
    ((fun _ => Except.error .noYahooData : String → Except FinRLErr (ℕ × ℕ)) "A".toUpper
      = Except.error .noYahooData) ∧
    get_or_train (fun _ => Except.error .noYahooData : String → Except FinRLErr (ℕ × ℕ))
        60 0 7 "A" (fun _ => none) = (.error .noYahooData, fun _ => none) :=
  ⟨(fun _ h => nomatch h), rfl,
    get_or_train_error_preserves_cache _ 60 0 7 "A" _ .noYahooData
      (fun _ h => nomatch h) rfl⟩

/-- Helper: every row surviving dropna has only non-null cells. -/
theorem mem_dropna_isSome {rows : List (List (Option ℚ))} {r : List (Option ℚ)}
    {cell : Option ℚ} (hr : r ∈ dropna rows) (hc : cell ∈ r) : cell.isSome = true := by
  rw [dropna, List.mem_filter] at hr
  exact List.all_eq_true.mp hr.2 cell hc

/-- C7 counterexample: 100 clean raw rows pass the row-count check, which
runs before the indicator step; if the indicator step leaves a dataset
that shrinks to 0 rows after forward-fill and null-dropping, the pipeline
still succeeds, although fewer than 100 rows remain after preprocessing. -/
theorem preprocess_count_check_cex :
    preprocess 100 (fun _ => [[none]]) (List.replicate 100 [some (1:ℚ)]) = Except.ok [] ∧
    ([] : List (List (Option ℚ))).length < 100 := by
  constructor
  · rfl
  · decide

/-- C7 (amended): the insufficient-data error fires exactly when the raw
frame is non-empty and its null-dropped form has fewer than the required
minimum rows (the check precedes indicator computation and forward-fill,
whose row losses are not re-checked); and every successful result is free
of nulls. -/
theorem preprocess_spec (m : ℕ)
    (indic : List (List (Option ℚ)) → List (List (Option ℚ)))
    (raw : List (List (Option ℚ))) :
    (preprocess m indic raw = Except.error .insufficientHistoricalData ↔
      raw ≠ [] ∧ (dropna raw = [] ∨ (dropna raw).length < m)) ∧
    (∀ out, preprocess m indic raw = Except.ok out →
      ∀ r ∈ out, ∀ cell ∈ r, cell.isSome = true) := by
  by_cases hraw : raw = []
  · subst hraw
    have hp : preprocess m indic [] = Except.error .noYahooData := rfl
    rw [hp]
    exact ⟨by simp, fun out hout => by simp at hout⟩
  · have hdl : download_market_data m raw =
        if dropna raw = [] ∨ (dropna raw).length < m then .error .insufficientHistoricalData
        else .ok (dropna raw) := by
      simp [download_market_data, hraw]
    by_cases hcond : dropna raw = [] ∨ (dropna raw).length < m
    · have hp : preprocess m indic raw = Except.error .insufficientHistoricalData := by
        simp [preprocess, hdl, hcond, Except.map]
      rw [hp]
      exact ⟨iff_of_true rfl ⟨hraw, hcond⟩, fun out hout => by simp at hout⟩
    · have hp : preprocess m indic raw =
          Except.ok (engineer_features indic (dropna raw)) := by
        simp [preprocess, hdl, hcond, Except.map]
      rw [hp]
      refine ⟨iff_of_false (by simp) (fun h => hcond h.2), fun out hout => ?_⟩
      obtain rfl : engineer_features indic (dropna raw) = out := by simpa using hout
      intro r hr cell hc
      exact mem_dropna_isSome hr hc

theorem preprocess_spec_witness :
    preprocess 1 id [[some (2:ℚ)]] = Except.ok [[some 2]] ∧
    (some (2:ℚ)).isSome = true :=
  ⟨rfl, (preprocess_spec 1 id [[some 2]]).2 [[some 2]] rfl [some 2] (by decide)
    (some 2) (by decide)⟩

/-! ## Signal translation (C1)

Embeds estimate_price_from_action of finrl_integration.py; the function
estimate_price of routers/predict.py has the identical body. Python
floats are idealised as reals; round(x, 4) is modelled as rounding to the
nearest multiple of 1/10^4 (Python rounds ties to even while Mathlib
round rounds ties up; no statement below sits on a tie). -/

/-- Python round(x, d) on idealised reals. -/
noncomputable def roundTo (d : ℕ) (x : ℝ) : ℝ := (round (x * 10 ^ d) : ℤ) / 10 ^ d

/-- The transform before display rounding: referenceClose times one plus
one percent of the tanh-squashed action. -/
noncomputable def price_estimate_core (ref a hmax : ℝ) : ℝ :=
  ref * (1 + Real.tanh (a / hmax) * 0.01)

/-- Embeds estimate_price_from_action: a missing action returns the
reference close unchanged; otherwise the squashed adjustment is applied
and the result rounded to 4 decimals. -/
noncomputable def estimate_price_from_action (ref : ℝ) (action : Option ℝ)
    (hmax : ℝ) : ℝ :=
  match action with
  | none => ref
  | some a => roundTo 4 (price_estimate_core ref a hmax)

/-- Helper: the hyperbolic tangent stays strictly inside the unit
interval. -/
theorem abs_tanh_lt_one (x : ℝ) : |Real.tanh x| < 1 := by
  have hc := Real.cosh_pos x
  rw [Real.tanh_eq_sinh_div_cosh, abs_div, abs_of_pos hc, div_lt_one hc, abs_lt]
  constructor
  · nlinarith [Real.cosh_add_sinh x, Real.exp_pos x]
  · nlinarith [Real.cosh_sub_sinh x, Real.exp_pos (-x)]

/-- Helper: rounding to d decimals moves a value by at most half a unit
in the last place. -/
theorem abs_roundTo_sub (d : ℕ) (x : ℝ) : |roundTo d x - x| ≤ 1 / (2 * 10 ^ d) := by
  have hp : (0:ℝ) < 10 ^ d := by positivity
  have h := abs_sub_round (x * 10 ^ d)
  have key : roundTo d x - x = -((x * 10 ^ d - round (x * 10 ^ d)) / 10 ^ d) := by
    field_simp [roundTo]
    ring
  rw [key, abs_neg, abs_div, abs_of_pos hp, div_le_div_iff hp (by positivity)]
  nlinarith [h, hp, mul_le_mul_of_nonneg_right h
    (le_of_lt (by positivity : (0:ℝ) < 2 * 10 ^ d))]

/-- C1 counterexample: the 1 percent bound fails for the value actually
returned, because of the 4-decimal rounding: with referenceClose 1/20000,
hmax 100 and rawAction 100, the rounding doubles the reference close, a
100 percent adjustment. -/
theorem estimate_price_pct_bound_cex :
    ¬ |estimate_price_from_action (1/20000) (some 100) 100 / (1/20000) - 1| ≤ 0.01 := by
  have ht1 : 0 < Real.tanh 1 := by
    rw [Real.tanh_eq_sinh_div_cosh]
    exact div_pos (Real.sinh_pos_iff.mpr one_pos) (Real.cosh_pos 1)
  have ht2 : Real.tanh 1 < 1 := lt_of_abs_lt (abs_tanh_lt_one 1)
  have hcore : price_estimate_core (1/20000) 100 100 =
      (1/20000) * (1 + Real.tanh 1 * 0.01) := by
    have h1 : (100:ℝ)/100 = 1 := by norm_num
    rw [price_estimate_core, h1]
  have hmul : price_estimate_core (1/20000) 100 100 * 10 ^ 4 =
      1/2 + Real.tanh 1 / 200 := by
    rw [hcore]; ring
  have hround : round (price_estimate_core (1/20000) 100 100 * 10 ^ 4) = 1 := by
    rw [hmul, round_eq, Int.floor_eq_iff]
    constructor
    · push_cast; linarith
    · push_cast; linarith
  have hest : estimate_price_from_action (1/20000) (some 100) 100 = 1 / 10 ^ 4 := by
    show roundTo 4 (price_estimate_core (1/20000) 100 100) = 1 / 10 ^ 4
    rw [roundTo, hround]
    norm_num
  rw [hest]
  rw [show (1:ℝ) / 10 ^ 4 / (1/20000) - 1 = 1 by norm_num]
  norm_num

/-- C1 (amended): for every referenceClose > 0, hmax > 0 and rawAction,
the transform before rounding adjusts the reference close by at most 1
percent; the returned value, which both estimate functions round to 4
decimals, satisfies the bound relaxed by the rounding slack of half a
unit in the last place over the reference close. The unrelaxed 1 percent
bound fails for small reference closes (see the counterexample). -/
theorem estimate_price_pct_bound (ref a hmax : ℝ) (href : 0 < ref) (hh : 0 < hmax) :
    |price_estimate_core ref a hmax / ref - 1| ≤ 0.01 ∧
    |estimate_price_from_action ref (some a) hmax / ref - 1| ≤
      0.01 + 1 / (20000 * ref) := by
  have ht := abs_tanh_lt_one (a / hmax)
  have hcore : price_estimate_core ref a hmax / ref - 1 = Real.tanh (a / hmax) * 0.01 := by
    rw [price_estimate_core]
    field_simp
  have h1 : |price_estimate_core ref a hmax / ref - 1| ≤ 0.01 := by
    rw [hcore, abs_mul, show |(0.01:ℝ)| = 0.01 by norm_num]
    nlinarith [abs_nonneg (Real.tanh (a / hmax))]
  refine ⟨h1, ?_⟩
  have hr := abs_roundTo_sub 4 (price_estimate_core ref a hmax)
  have hest : estimate_price_from_action ref (some a) hmax =
      roundTo 4 (price_estimate_core ref a hmax) := rfl
  have hsplit : roundTo 4 (price_estimate_core ref a hmax) / ref - 1 =
      (price_estimate_core ref a hmax / ref - 1) +
      (roundTo 4 (price_estimate_core ref a hmax) - price_estimate_core ref a hmax) / ref := by
    field_simp
  rw [hest, hsplit]
  refine le_trans (abs_add _ _) (add_le_add h1 ?_)
  rw [abs_div, abs_of_pos href, div_le_div_iff href (by positivity)]
  have h20000 : |roundTo 4 (price_estimate_core ref a hmax) -
      price_estimate_core ref a hmax| ≤ 1 / 20000 := by
    calc |roundTo 4 (price_estimate_core ref a hmax) - price_estimate_core ref a hmax|
        ≤ 1 / (2 * 10 ^ 4) := hr
      _ = 1 / 20000 := by norm_num
  nlinarith [mul_le_mul_of_nonneg_right h20000
    (le_of_lt (by positivity : (0:ℝ) < 20000 * ref))]

theorem estimate_price_pct_bound_witness :
    ((0:ℝ) < 1) ∧ ((0:ℝ) < 100) ∧
    (|price_estimate_core 1 0 100 / 1 - 1| ≤ 0.01 ∧
      |estimate_price_from_action 1 (some 0) 100 / 1 - 1| ≤ 0.01 + 1 / (20000 * 1)) :=
  ⟨by norm_num, by norm_num, estimate_price_pct_bound 1 0 100 (by norm_num) (by norm_num)⟩

/-! ## Metrics and the backtest payload (C6)

Embeds calculate_metrics and build_backtest_payload of
finrl_integration.py over the account-value series. pandas pct_change
followed by dropna is the pairwise relative change; std is the
sample standard deviation; a singleton return list has std NaN in
pandas, whose comparison with 0 is false, matching the 0/0 = 0 sqrt
here (sharpe stays 0 either way). The price_comparison series and
generation timestamps are not modelled; no verified property below
concerns them. -/

noncomputable def meanR (l : List ℝ) : ℝ := l.sum / l.length

/-- Sample standard deviation (pandas default, ddof 1). -/
noncomputable def stdR (l : List ℝ) : ℝ :=
  Real.sqrt ((l.map fun x => (x - meanR l) ^ 2).sum / ((l.length : ℝ) - 1))

def cummaxAux (m : ℝ) : List ℝ → List ℝ
  | [] => []
  | x :: xs => max m x :: cummaxAux (max m x) xs

/-- pandas cummax: running maximum of the series. -/
def cummax : List ℝ → List ℝ
  | [] => []
  | x :: xs => x :: cummaxAux x xs

/-- pandas min of a series (junk 0 on empty; the caller guards). -/
noncomputable def listMin : List ℝ → ℝ
  | [] => 0
  | x :: xs => xs.foldl min x

structure Metrics where
  final_equity : ℝ
  total_return_pct : ℝ
  sharpe_ratio : ℝ
  max_drawdown_pct : ℝ

/-- Embeds calculate_metrics on the account-value series (iloc positions
become head and last; the series is non-empty whenever the trading loop
produced output). -/
noncomputable def calculate_metrics (series : List ℝ) : Metrics :=
  let final_equity := (series.getLast?).getD 0
  let total_return := (final_equity / series.headD 0 - 1) * 100
  let returns := List.zipWith (fun prev next => next / prev - 1) series series.tail
  let sharpe : ℝ :=
    if returns ≠ [] ∧ 0 < stdR returns then
      meanR returns / stdR returns * Real.sqrt 252
    else 0
  let rolling_max := cummax series
  let drawdowns := List.zipWith (fun s m => (s - m) / m) series rolling_max
  let max_drawdown := if drawdowns = [] then 0 else listMin drawdowns * 100
  { final_equity := roundTo 2 final_equity
    total_return_pct := roundTo 2 total_return
    sharpe_ratio := roundTo 3 sharpe
    max_drawdown_pct := roundTo 2 max_drawdown }

structure EquityPoint where
  date : ℤ
  equity : ℝ

/-- The backtest payload parts relevant here: the equity curve and the
metrics, both derived from the account memory rows (date, accountValue). -/
structure BacktestPayload where
  symbol : String
  equity_curve : List EquityPoint
  metrics : Metrics

/-- Embeds build_backtest_payload: the equity curve copies the account
memory rows; the metrics come from calculate_metrics on the same series. -/
noncomputable def build_backtest_payload (symbol : String)
    (account_memory : List (ℤ × ℝ)) : BacktestPayload :=
  { symbol := symbol
    equity_curve := account_memory.map fun r => ⟨r.1, r.2⟩
    metrics := calculate_metrics (account_memory.map Prod.snd) }

/-- Helper: the last equity of the mapped curve is the last account
value. -/
theorem getLast?_map_equity (am : List (ℤ × ℝ)) :
    ((am.map fun r => (⟨r.1, r.2⟩ : EquityPoint)).getLast?).map EquityPoint.equity
      = (am.map Prod.snd).getLast? := by
  induction am with
  | nil => rfl
  | cons a t ih =>
    cases t with
    | nil => rfl
    | cons b t2 => simpa using ih

/-- C6 counterexample: metrics.final_equity is rounded to 2 decimals
while the equity curve is not; with account values 100 and 100.003 the
curve ends at 100.003 but the metric reads 100. -/
theorem final_equity_cex :
    (build_backtest_payload "AAPL" [(0, 100), (1, 100.003)]).metrics.final_equity ≠
    (((build_backtest_payload "AAPL" [(0, 100), (1, 100.003)]).equity_curve.getLast?).getD
      ⟨0, 0⟩).equity := by
  have hL : (build_backtest_payload "AAPL" [(0, 100), (1, 100.003)]).metrics.final_equity
      = roundTo 2 100.003 := by
    simp [build_backtest_payload, calculate_metrics]
  have hR : (((build_backtest_payload "AAPL"
      [(0, 100), (1, 100.003)]).equity_curve.getLast?).getD ⟨0, 0⟩).equity
      = 100.003 := by
    simp [build_backtest_payload]
  rw [hL, hR]
  have hmul : (100.003:ℝ) * 10 ^ 2 = 10000.3 := by norm_num
  have hfl : round ((100.003:ℝ) * 10 ^ 2) = 10000 := by
    rw [hmul, round_eq, Int.floor_eq_iff]
    constructor <;> norm_num
  rw [roundTo, hfl]
  norm_num

/-- C6 (amended): for every non-empty account memory, the backtest
payload metric final_equity equals the equity of the last equity-curve
element rounded to 2 decimals (the curve itself carries the unrounded
value). -/
theorem final_equity_rounded (symbol : String) (am : List (ℤ × ℝ)) (hne : am ≠ []) :
    (build_backtest_payload symbol am).metrics.final_equity =
    roundTo 2 ((((build_backtest_payload symbol am).equity_curve.getLast?).getD
      ⟨0, 0⟩).equity) := by
  obtain ⟨v, hv⟩ : ∃ v, (am.map Prod.snd).getLast? = some v := by
    cases am with
    | nil => exact absurd rfl hne
    | cons a t =>
      exact Option.isSome_iff_exists.mp (List.getLast?_isSome.mpr (by simp))
  have hcurve : (build_backtest_payload symbol am).equity_curve.getLast? =
      ((am.map fun r => (⟨r.1, r.2⟩ : EquityPoint)).getLast?) := rfl
  obtain ⟨ep, hep⟩ : ∃ ep, (am.map fun r => (⟨r.1, r.2⟩ : EquityPoint)).getLast?
      = some ep := by
    cases am with
    | nil => exact absurd rfl hne
    | cons a t =>
      exact Option.isSome_iff_exists.mp (List.getLast?_isSome.mpr (by simp))
  have hepv : ep.equity = v := by
    have := getLast?_map_equity am
    rw [hep, hv] at this
    simpa using this
  have hL : (build_backtest_payload symbol am).metrics.final_equity
      = roundTo 2 v := by
    simp [build_backtest_payload, calculate_metrics, hv]
  rw [hL, hcurve, hep]
  simp [hepv]

theorem final_equity_rounded_witness :
    ([((0:ℤ), (5:ℝ))] ≠ []) ∧
    ((build_backtest_payload "A" [((0:ℤ), (5:ℝ))]).metrics.final_equity =
      roundTo 2 ((((build_backtest_payload "A"
        [((0:ℤ), (5:ℝ))]).equity_curve.getLast?).getD ⟨0, 0⟩).equity)) :=
  ⟨by simp, final_equity_rounded "A" [(0, 5)] (by simp)⟩

end InvestIQ
